import Mathlib

/-!
Verification of the scheduler/pipeline core of the podcast processing
repository: the generic retrying worker (processing/workers/base_worker.py),
the token-bucket rate limiter (processing/utils/rate_limiter.py), the
metrics collector (processing/utils/metrics.py) and the processing manager
(processing/manager.py), shallowly embedded in Lean 4.
-/

namespace PawgAudio

/-! ## Worker model: base_worker.py, BaseWorker.process -/

/-- Outcome of one execution of the stage-specific action
(one call of _process_episode inside the retry loop): it returns True,
returns False, or raises an exception carrying a message. -/
inductive AttemptResult where
  | ok : AttemptResult
  | notOk : AttemptResult
  | exn : String → AttemptResult
deriving DecidableEq, Repr

/-- The mutable fields of one episode's ProcessingStatus that
BaseWorker.process touches: the stage completion flag written by the
stage action on success, the error message and retry counter written on
an exception, and the start-timestamp marker written by
_update_start_time before the loop. -/
structure WStatus where
  flag : Bool
  error_message : Option String
  retry_count : Nat
  started : Bool
deriving DecidableEq, Repr

/-- Result of a BaseWorker.process call: the returned boolean, the final
status (none when the episode or its status row was missing), how many
times the stage action was attempted, and the list of backoff delays
slept, in order. -/
structure ProcResult where
  success : Bool
  status : Option WStatus
  attemptsMade : Nat
  sleeps : List Nat
deriving DecidableEq, Repr

/-- The retry loop of BaseWorker.process (lines 61-91): while
retries <= max_retries, run the stage action; on True set the completion
flag and return True; on False fall through to the next iteration; on an
exception record error_message, increment retry_count, and if
retries < max_retries sleep retry_delay * 2 ^ retries before retrying.
The attempt function gives the outcome of the action at each value of
the retries counter. -/
def processGo (mr rd : Nat) (attempt : Nat → AttemptResult) (retries : Nat)
    (st : WStatus) (made : Nat) (sleeps : List Nat) : ProcResult :=
  if retries ≤ mr then
    match attempt retries with
    | .ok =>
        { success := true, status := some { st with flag := true },
          attemptsMade := made + 1, sleeps := sleeps }
    | .notOk =>
        processGo mr rd attempt (retries + 1) st (made + 1) sleeps
    | .exn msg =>
        let st' : WStatus :=
          { st with error_message := some msg, retry_count := st.retry_count + 1 }
        let sleeps' : List Nat :=
          if retries < mr then sleeps ++ [rd * 2 ^ retries] else sleeps
        processGo mr rd attempt (retries + 1) st' (made + 1) sleeps'
  else
    { success := false, status := some st, attemptsMade := made, sleeps := sleeps }
termination_by mr + 1 - retries
decreasing_by all_goals omega

/-- What BaseWorker.process finds when it looks the episode up in the
store: no episode row, an episode without a status row, or the status. -/
inductive LookupResult where
  | noEpisode : LookupResult
  | noStatus : LookupResult
  | found : WStatus → LookupResult
deriving DecidableEq, Repr

/-- BaseWorker.process (lines 38-91): fail fast returning False when the
episode or its status is missing; otherwise mark the stage start
timestamp and run the retry loop from retries = 0. -/
def process (mr rd : Nat) (attempt : Nat → AttemptResult)
    (lk : LookupResult) : ProcResult :=
  match lk with
  | .noEpisode => { success := false, status := none, attemptsMade := 0, sleeps := [] }
  | .noStatus => { success := false, status := none, attemptsMade := 0, sleeps := [] }
  | .found st => processGo mr rd attempt 0 { st with started := true } 0 []

/-! ## Rate limiter model: rate_limiter.py -/

/-- The mutable state of a RateLimiter: the current token count and the
timestamp of the last refill, both rationals (the source uses floats fed
from a monotonic clock). -/
structure RLState where
  tokens : ℚ
  last_update : ℚ
deriving DecidableEq, Repr

/-- RateLimiter._add_tokens (lines 23-31) executed at clock value now:
accrue time_passed * (max_calls / time_window) new tokens; if that is
positive, add them capped at max_calls and advance last_update. -/
def addTokens (maxCalls timeWindow now : ℚ) (s : RLState) : RLState :=
  let newTokens := (now - s.last_update) * (maxCalls / timeWindow)
  if 0 < newTokens then
    { tokens := min maxCalls (s.tokens + newTokens), last_update := now }
  else s

/-- One poll of RateLimiter.acquire's loop body (lines 39-45) at clock
value now: refill, then take a token if at least one is available.
Returns whether the acquisition completed together with the new state. -/
def tryAcquire (maxCalls timeWindow now : ℚ) (s : RLState) : Bool × RLState :=
  let s' := addTokens maxCalls timeWindow now s
  if 1 ≤ s'.tokens then (true, { s' with tokens := s'.tokens - 1 })
  else (false, s')

/-- A freshly constructed RateLimiter (lines 9-21) at clock value t0:
the bucket starts full. -/
def rlInit (maxCalls t0 : ℚ) : RLState :=
  { tokens := maxCalls, last_update := t0 }

/-- One operation on the rate limiter state: a bare refill, or one poll
of acquire, each stamped with the clock value at which it runs. -/
inductive RLOp where
  | refill : ℚ → RLOp
  | acq : ℚ → RLOp
deriving DecidableEq, Repr

/-- Run a sequence of rate limiter operations. -/
def runOps (maxCalls timeWindow : ℚ) (s : RLState) : List RLOp → RLState
  | [] => s
  | .refill t :: ops => runOps maxCalls timeWindow (addTokens maxCalls timeWindow t s) ops
  | .acq t :: ops => runOps maxCalls timeWindow (tryAcquire maxCalls timeWindow t s).2 ops

/-- Number of acquire polls that complete (succeed) when the polls in
the list, stamped with their clock values, hit the limiter in order. -/
def countSucc (maxCalls timeWindow : ℚ) (s : RLState) : List ℚ → Nat
  | [] => 0
  | t :: ts =>
      let r := tryAcquire maxCalls timeWindow t s
      (if r.1 then 1 else 0) + countSucc maxCalls timeWindow r.2 ts

/-! ## Metrics model: metrics.py, MetricsCollector -/

/-- First-match association lookup, the model of a Python dict read. -/
def lookupKey (name : String) : List (String × ℚ) → Option ℚ
  | [] => none
  | (k, v) :: rest => if k = name then some v else lookupKey name rest

/-- Insert-or-replace, the model of a Python dict write. -/
def setKey (name : String) (v : ℚ) : List (String × ℚ) → List (String × ℚ)
  | [] => [(name, v)]
  | (k, w) :: rest =>
      if k = name then (k, v) :: rest else (k, w) :: setKey name v rest

/-- The state of a MetricsCollector: the gauge dict _metrics, the
counter dict _counters, and the monotonic start clock _start_time. -/
structure MetricsState where
  gauges : List (String × ℚ)
  counters : List (String × ℚ)
  start : ℚ
deriving DecidableEq, Repr

/-- MetricsCollector.set (lines 26-35): write a gauge. -/
def mSet (name : String) (v : ℚ) (m : MetricsState) : MetricsState :=
  { m with gauges := setKey name v m.gauges }

/-- MetricsCollector.update (lines 16-24): write many gauges in order. -/
def mUpdate (kvs : List (String × ℚ)) (m : MetricsState) : MetricsState :=
  { m with gauges := kvs.foldl (fun acc kv => setKey kv.1 kv.2 acc) m.gauges }

/-- MetricsCollector.increment (lines 37-46): add amount to a counter,
treating a missing counter as 0. -/
def mIncrement (name : String) (amount : ℚ) (m : MetricsState) : MetricsState :=
  let old := (lookupKey name m.counters).getD 0
  { m with counters := setKey name (old + amount) m.counters }

/-- MetricsCollector.get (lines 48-64): gauges first, then counters,
then the default. -/
def mGet (name : String) (default : ℚ) (m : MetricsState) : ℚ :=
  match lookupKey name m.gauges with
  | some v => v
  | none =>
      match lookupKey name m.counters with
      | some v => v
      | none => default

/-- MetricsCollector.get_all (lines 66-77) read at clock value now: copy
the gauges, overwrite with every counter, then overwrite the uptime key
with the elapsed time. -/
def mGetAll (now : ℚ) (m : MetricsState) : List (String × ℚ) :=
  let merged := m.counters.foldl (fun acc kv => setKey kv.1 kv.2 acc) m.gauges
  setKey "uptime" (now - m.start) merged

/-! ## Manager model: manager.py, ProcessingManager

The manager, its scheduling loop _manage_queues and the three per-stage
worker loops are embedded as a labelled-free transition system on an
explicit state.  Each step is an atomic block of the source between two
suspension points of the event loop: one per-episode enqueue decision of
a scheduling pass, a queue get plus active-set add (no await separates
them in _run_*_worker), a mid-flight committed status mutation made by
a worker while the episode is active, and the post-process bookkeeping
block (counter or failed-task append, active-set removal). -/

/-- The three pipeline stages. -/
inductive Stage where
  | download : Stage
  | transcribe : Stage
  | analyze : Stage
deriving DecidableEq, Repr

/-- The per-episode ProcessingStatus fields the manager and workers
read and write. -/
structure EpState where
  downloaded : Bool
  transcribed : Bool
  analyzed : Bool
  retry_count : Nat
  error_message : Option String
deriving DecidableEq, Repr

/-- Manager state: the store (episode id to status), one priority queue
and one active set per stage, the failed-task list and the processed
counter. -/
structure MState where
  store : Nat → EpState
  queue : Stage → List (ℚ × Nat)
  active : Stage → List Nat
  failed_tasks : List (Nat × Stage × String)
  total_processed : Nat

/-- Priority computed by the scheduling pass (manager.py lines 184-186):
age in hours plus 24 per past retry; lower is scheduled first. -/
def priorityScore (age_hours : ℚ) (retry_count : Nat) : ℚ :=
  age_hours + retry_count * 24

/-- Order on queue entries, matching Python tuple comparison on
(priority, episode_id) used by the heap. -/
def entryLeB (a b : ℚ × Nat) : Bool :=
  a.1 < b.1 ∨ (a.1 = b.1 ∧ a.2 ≤ b.2)

/-- Pop the least entry of a priority queue (leftmost among equals),
returning it and the remaining entries; none on an empty queue. -/
def popMin : List (ℚ × Nat) → Option ((ℚ × Nat) × List (ℚ × Nat))
  | [] => none
  | x :: xs =>
      match popMin xs with
      | none => some (x, [])
      | some (m, rest) =>
          if entryLeB x m then some (x, xs) else some (m, x :: rest)

/-- The episode ids currently sitting in a queue. -/
def qIds (q : List (ℚ × Nat)) : List Nat := q.map Prod.snd

/-- The filter of the scheduling pass's store query (manager.py lines
160-179): some stage's work is pending and the retry budget is not
exhausted. -/
def eligible (mr : Nat) (e : EpState) : Prop :=
  e.retry_count < mr ∧
    (e.downloaded = false ∨
      (e.downloaded = true ∧ e.transcribed = false) ∨
      (e.transcribed = true ∧ e.analyzed = false))

instance (mr : Nat) (e : EpState) : Decidable (eligible mr e) := by
  unfold eligible; infer_instance

/-- The per-episode body of the scheduling pass (manager.py lines
181-193): compute the priority and push the id onto the first stage
queue whose flags match, guarded only by that stage's active set. -/
def enqueueEffect (st : MState) (ep : Nat) (age : ℚ) : MState :=
  let e := st.store ep
  let pr := priorityScore age e.retry_count
  if e.downloaded = false ∧ ep ∉ st.active .download then
    { st with queue := fun q =>
        if q = Stage.download then st.queue q ++ [(pr, ep)] else st.queue q }
  else if e.downloaded = true ∧ e.transcribed = false ∧ ep ∉ st.active .transcribe then
    { st with queue := fun q =>
        if q = Stage.transcribe then st.queue q ++ [(pr, ep)] else st.queue q }
  else if e.transcribed = true ∧ e.analyzed = false ∧ ep ∉ st.active .analyze then
    { st with queue := fun q =>
        if q = Stage.analyze then st.queue q ++ [(pr, ep)] else st.queue q }
  else st

/-- A worker loop's dequeue block (manager.py lines 204-205 and the
analogous lines of the other stages): remove the least entry from the
stage queue and add its episode id to the stage's active set. -/
def workerGetEffect (stg : Stage) (st : MState) (rest : List (ℚ × Nat))
    (ep : Nat) : MState :=
  { st with
    queue := fun q => if q = stg then rest else st.queue q,
    active := fun q => if q = stg then ep :: st.active q else st.active q }

/-- A committed failure record made by BaseWorker.process mid-flight
(base_worker.py lines 76-80): set error_message, bump retry_count. -/
def recordFailureEffect (ep : Nat) (msg : String) (st : MState) : MState :=
  { st with store := fun i =>
      if i = ep then
        { st.store i with
          error_message := some msg, retry_count := (st.store i).retry_count + 1 }
      else st.store i }

/-- The committed success of a stage action: the stage's flag becomes
true (download_worker.py line 68, transcribe_worker.py line 88,
analyze_worker.py line 62). -/
def setFlagEffect (stg : Stage) (ep : Nat) (st : MState) : MState :=
  { st with store := fun i =>
      if i = ep then
        match stg with
        | .download => { st.store i with downloaded := true }
        | .transcribe => { st.store i with transcribed := true }
        | .analyze => { st.store i with analyzed := true }
      else st.store i }

/-- The worker loop's bookkeeping after process returns (manager.py
lines 208-215): the return value is ignored, total_processed is
incremented, the id leaves the active set. -/
def doneEffect (stg : Stage) (ep : Nat) (st : MState) : MState :=
  { st with
    active := fun q => if q = stg then (st.active q).erase ep else st.active q,
    total_processed := st.total_processed + 1 }

/-- The worker loop's bookkeeping when process raises (manager.py lines
210-215): append to failed_tasks, the id leaves the active set. -/
def doneExnEffect (stg : Stage) (ep : Nat) (msg : String) (st : MState) : MState :=
  { st with
    active := fun q => if q = stg then (st.active q).erase ep else st.active q,
    failed_tasks := (ep, stg, msg) :: st.failed_tasks }

/-- The stage precondition checked by the stage action before it can
succeed (transcribe_worker.py lines 46-48, analyze_worker.py lines
33-35; download has none). -/
def stagePre (stg : Stage) (e : EpState) : Prop :=
  match stg with
  | .download => True
  | .transcribe => e.downloaded = true
  | .analyze => e.transcribed = true

/-- One atomic step of the pipeline, interleaving the scheduling pass
and the per-stage worker loops. -/
inductive Step (mr : Nat) : MState → MState → Prop where
  | enqueue (st : MState) (ep : Nat) (age : ℚ) :
      eligible mr (st.store ep) →
      Step mr st (enqueueEffect st ep age)
  | workerGet (st : MState) (stg : Stage) (pr : ℚ) (ep : Nat)
      (rest : List (ℚ × Nat)) :
      popMin (st.queue stg) = some ((pr, ep), rest) →
      Step mr st (workerGetEffect stg st rest ep)
  | recordFailure (st : MState) (stg : Stage) (ep : Nat) (msg : String) :
      ep ∈ st.active stg →
      Step mr st (recordFailureEffect ep msg st)
  | actionOk (st : MState) (stg : Stage) (ep : Nat) :
      ep ∈ st.active stg →
      stagePre stg (st.store ep) →
      Step mr st (setFlagEffect stg ep st)
  | workerDone (st : MState) (stg : Stage) (ep : Nat) :
      ep ∈ st.active stg →
      Step mr st (doneEffect stg ep st)
  | workerDoneExn (st : MState) (stg : Stage) (ep : Nat) (msg : String) :
      ep ∈ st.active stg →
      Step mr st (doneExnEffect stg ep msg st)

/-- Zero or more pipeline steps. -/
def Steps (mr : Nat) : MState → MState → Prop :=
  Relation.ReflTransGen (Step mr)

/-- The initial manager state over a given store: empty queues, empty
active sets, no failures, nothing processed. -/
def mInit (store : Nat → EpState) : MState :=
  { store := store, queue := fun _ => [], active := fun _ => [],
    failed_tasks := [], total_processed := 0 }

/-- The snapshot returned by ProcessingManager.get_status (lines
297-315), restricted to the fields the claims mention. -/
structure StatusSnapshot where
  failed_tasks : Nat
  total_processed : Nat
  queues : Stage → Nat
  active_tasks : Stage → Nat

/-- ProcessingManager.get_status as a pure read of the manager state. -/
def getStatus (st : MState) : StatusSnapshot :=
  { failed_tasks := st.failed_tasks.length,
    total_processed := st.total_processed,
    queues := fun s => (st.queue s).length,
    active_tasks := fun s => (st.active s).length }

/-! ## Worker lemmas -/

/-- Unfolding of one exception attempt of the retry loop. -/
theorem processGo_exn_step (mr rd retries made : Nat) (st : WStatus)
    (sleeps : List Nat) (attempt : Nat → AttemptResult) (msg : String)
    (h : retries ≤ mr) (ha : attempt retries = .exn msg) :
    processGo mr rd attempt retries st made sleeps =
      processGo mr rd attempt (retries + 1)
        { st with error_message := some msg, retry_count := st.retry_count + 1 }
        (made + 1)
        (if retries < mr then sleeps ++ [rd * 2 ^ retries] else sleeps) := by
  conv_lhs => unfold processGo
  simp [h, ha]

/-- Unfolding of one returned-False attempt of the retry loop. -/
theorem processGo_notOk_step (mr rd retries made : Nat) (st : WStatus)
    (sleeps : List Nat) (attempt : Nat → AttemptResult)
    (h : retries ≤ mr) (ha : attempt retries = .notOk) :
    processGo mr rd attempt retries st made sleeps =
      processGo mr rd attempt (retries + 1) st (made + 1) sleeps := by
  conv_lhs => unfold processGo
  simp [h, ha]

/-- Unfolding of the loop exit once the retries counter passes
max_retries. -/
theorem processGo_exit (mr rd retries made : Nat) (st : WStatus)
    (sleeps : List Nat) (attempt : Nat → AttemptResult) (h : mr < retries) :
    processGo mr rd attempt retries st made sleeps =
      { success := false, status := some st, attemptsMade := made,
        sleeps := sleeps } := by
  conv_lhs => unfold processGo
  simp [Nat.not_le.mpr h]

/-- With an action that raises on every attempt, the retry loop runs
exactly the remaining number of attempts, increments retry_count by
that number, sets error_message, and returns without setting the
completion flag. -/
theorem processGo_all_exn (mr rd : Nat) (attempt : Nat → AttemptResult)
    (h : ∀ n, ∃ m, attempt n = .exn m) :
    ∀ (k retries : Nat), mr + 1 = retries + k → 1 ≤ k →
    ∀ (st : WStatus) (made : Nat) (sleeps : List Nat),
    ∃ m,
      (processGo mr rd attempt retries st made sleeps).success = false ∧
      (processGo mr rd attempt retries st made sleeps).status =
        some { flag := st.flag, error_message := some m,
               retry_count := st.retry_count + k, started := st.started } ∧
      (processGo mr rd attempt retries st made sleeps).attemptsMade = made + k := by
  intro k
  induction k with
  | zero => intro retries _ h1; omega
  | succ k ih =>
    intro retries hk _ st made sleeps
    obtain ⟨m0, hm0⟩ := h retries
    have hr : retries ≤ mr := by omega
    rw [processGo_exn_step mr rd retries made st sleeps attempt m0 hr hm0]
    by_cases hk1 : 1 ≤ k
    · obtain ⟨m, hm1, hm2, hm3⟩ := ih (retries + 1) (by omega) hk1 _ (made + 1) _
      refine ⟨m, hm1, ?_, by omega⟩
      rw [hm2]
      simp
      omega
    · have hk0 : k = 0 := by omega
      subst hk0
      rw [processGo_exit mr rd (retries + 1) (made + 1) _ _ attempt (by omega)]
      exact ⟨m0, rfl, by simp, by simp⟩

/-- With an action that returns False on every attempt, the retry loop
runs the remaining number of attempts without mutating the status,
recording no error, and sleeping no backoff. -/
theorem processGo_all_notOk (mr rd : Nat) (attempt : Nat → AttemptResult)
    (h : ∀ n, attempt n = .notOk) :
    ∀ (k retries : Nat), mr + 1 = retries + k →
    ∀ (st : WStatus) (made : Nat) (sleeps : List Nat),
    processGo mr rd attempt retries st made sleeps =
      { success := false, status := some st, attemptsMade := made + k,
        sleeps := sleeps } := by
  intro k
  induction k with
  | zero =>
    intro retries hk st made sleeps
    rw [processGo_exit mr rd retries made st sleeps attempt (by omega)]
    simp
  | succ k ih =>
    intro retries hk st made sleeps
    rw [processGo_notOk_step mr rd retries made st sleeps attempt (by omega) (h retries)]
    rw [ih (retries + 1) (by omega) st (made + 1) sleeps]
    simp
    omega

/-- C3: with max_retries = 3 and a stage action that raises on every
attempt, process makes exactly 4 attempts, returns false, leaves the
completion flag false, sets error_message, ends with retry_count exactly
4 above its start (within the claim's 3-or-4 allowance), and an episode
with retry_count at or above max_retries is not matched by the
scheduling pass's store query. -/
theorem worker_exhausted_retries (rd : Nat) (attempt : Nat → AttemptResult)
    (st : WStatus) (hflag : st.flag = false)
    (h : ∀ n, ∃ m, attempt n = .exn m) :
    (process 3 rd attempt (.found st)).success = false ∧
    (process 3 rd attempt (.found st)).attemptsMade = 4 ∧
    (∃ m, (process 3 rd attempt (.found st)).status =
      some { flag := false, error_message := some m,
             retry_count := st.retry_count + 4, started := true }) ∧
    (∀ e : EpState, 3 ≤ e.retry_count → ¬ eligible 3 e) := by
  obtain ⟨m, hm1, hm2, hm3⟩ :=
    processGo_all_exn 3 rd attempt h 4 0 rfl (by omega)
      { st with started := true } 0 []
  refine ⟨hm1, hm3, ⟨m, ?_⟩, ?_⟩
  · rw [show (process 3 rd attempt (.found st)).status =
        (processGo 3 rd attempt 0 { st with started := true } 0 []).status from rfl,
      hm2, hflag]
  · intro e he hel
    exact absurd hel.1 (by omega)

/-- C3 witness: a concrete always-raising action under max_retries = 3
makes exactly 4 attempts. -/
theorem worker_exhausted_retries_witness :
    (process 3 5 (fun _ => AttemptResult.exn "boom")
      (.found ⟨false, none, 7, false⟩)).attemptsMade = 4 :=
  (worker_exhausted_retries 5 (fun _ => AttemptResult.exn "boom")
    ⟨false, none, 7, false⟩ rfl (fun _ => ⟨"boom", rfl⟩)).2.1

/-- C4 counterexample: with max_retries = 1 and an action that fails by
returning False on both attempts, both failed attempts leave
retry_count and error_message untouched and trigger no backoff sleep —
refuting that every way an attempt can fail records error_message,
increments retry_count and backs off. -/
theorem failed_attempt_record_cex :
    (process 1 5 (fun _ => AttemptResult.notOk)
      (.found ⟨false, none, 0, false⟩)).attemptsMade = 2 ∧
    (process 1 5 (fun _ => AttemptResult.notOk)
      (.found ⟨false, none, 0, false⟩)).status = some ⟨false, none, 0, true⟩ ∧
    (process 1 5 (fun _ => AttemptResult.notOk)
      (.found ⟨false, none, 0, false⟩)).sleeps = [] := by
  rw [show process 1 5 (fun _ => AttemptResult.notOk)
        (.found ⟨false, none, 0, false⟩) =
      processGo 1 5 (fun _ => AttemptResult.notOk) 0 ⟨false, none, 0, true⟩ 0 []
    from rfl]
  rw [processGo_all_notOk 1 5 _ (fun _ => rfl) 2 0 rfl _ 0 []]
  exact ⟨rfl, rfl, rfl⟩

/-- C4 amended: an attempt that fails by raising records error_message,
increments retry_count, and appends the backoff sleep
retry_delay * 2 ^ attempt exactly when attempts remain; an attempt that
fails by returning False proceeds to the next attempt with no status
mutation and no sleep. -/
theorem failed_attempt_record (mr rd retries made : Nat) (st : WStatus)
    (sleeps : List Nat) (attempt : Nat → AttemptResult) (h : retries ≤ mr) :
    (∀ msg, attempt retries = .exn msg →
      processGo mr rd attempt retries st made sleeps =
        processGo mr rd attempt (retries + 1)
          { st with error_message := some msg,
                    retry_count := st.retry_count + 1 }
          (made + 1)
          (if retries < mr then sleeps ++ [rd * 2 ^ retries] else sleeps)) ∧
    (attempt retries = .notOk →
      processGo mr rd attempt retries st made sleeps =
        processGo mr rd attempt (retries + 1) st (made + 1) sleeps) := by
  constructor
  · intro msg ha
    exact processGo_exn_step mr rd retries made st sleeps attempt msg h ha
  · intro ha
    exact processGo_notOk_step mr rd retries made st sleeps attempt h ha

/-- C4 witness: the attempt-failure step at a concrete input. -/
theorem failed_attempt_record_witness :
    processGo 3 5 (fun _ => AttemptResult.exn "x") 0 ⟨false, none, 0, true⟩ 0 [] =
      processGo 3 5 (fun _ => AttemptResult.exn "x") 1 ⟨false, some "x", 1, true⟩ 1 [5] := by
  have h := (failed_attempt_record 3 5 0 0 ⟨false, none, 0, true⟩ []
    (fun _ => AttemptResult.exn "x") (by omega)).1 "x" rfl
  simpa using h

/-- C5 counterexample: with max_retries = 3, an episode whose stage
precondition is unmet (the action returns False every time) is retried:
process makes 4 attempts rather than returning immediately, and the
status picks up the start-timestamp mark — refuting the immediate
return with no retry attempts. -/
theorem precondition_retry_cex :
    (process 3 5 (fun _ => AttemptResult.notOk)
      (.found ⟨false, none, 0, false⟩)).attemptsMade = 4 ∧
    (process 3 5 (fun _ => AttemptResult.notOk)
      (.found ⟨false, none, 0, false⟩)).success = false ∧
    (process 3 5 (fun _ => AttemptResult.notOk)
      (.found ⟨false, none, 0, false⟩)).status = some ⟨false, none, 0, true⟩ := by
  rw [show process 3 5 (fun _ => AttemptResult.notOk)
        (.found ⟨false, none, 0, false⟩) =
      processGo 3 5 (fun _ => AttemptResult.notOk) 0 ⟨false, none, 0, true⟩ 0 []
    from rfl]
  rw [processGo_all_notOk 3 5 _ (fun _ => rfl) 4 0 rfl _ 0 []]
  exact ⟨rfl, rfl, rfl⟩

/-- C5 amended: a missing episode or missing status makes process return
false immediately with zero attempts and no status mutation; an unmet
stage precondition makes the action return False on each of the
max_retries + 1 attempts, after which process returns false having
mutated nothing but the start-timestamp mark and slept no backoff. -/
theorem worker_precondition_failure (mr rd : Nat)
    (attempt : Nat → AttemptResult) (st : WStatus)
    (h : ∀ n, attempt n = .notOk) :
    process mr rd attempt .noEpisode =
      { success := false, status := none, attemptsMade := 0, sleeps := [] } ∧
    process mr rd attempt .noStatus =
      { success := false, status := none, attemptsMade := 0, sleeps := [] } ∧
    process mr rd attempt (.found st) =
      { success := false, status := some { st with started := true },
        attemptsMade := mr + 1, sleeps := [] } := by
  refine ⟨rfl, rfl, ?_⟩
  rw [show process mr rd attempt (.found st) =
      processGo mr rd attempt 0 { st with started := true } 0 [] from rfl]
  rw [processGo_all_notOk mr rd attempt h (mr + 1) 0 (by omega) _ 0 []]
  simp

/-- C5 witness: the precondition-failure behavior at a concrete input. -/
theorem worker_precondition_failure_witness :
    process 2 7 (fun _ => AttemptResult.notOk) (.found ⟨false, none, 0, false⟩) =
      { success := false, status := some ⟨false, none, 0, true⟩,
        attemptsMade := 3, sleeps := [] } :=
  (worker_precondition_failure 2 7 (fun _ => AttemptResult.notOk)
    ⟨false, none, 0, false⟩ (fun _ => rfl)).2.2

/-! ## Rate limiter lemmas -/

/-- Refill when the accrued amount is positive. -/
theorem addTokens_pos (C W t : ℚ) (s : RLState)
    (h : 0 < (t - s.last_update) * (C / W)) :
    addTokens C W t s =
      { tokens := min C (s.tokens + (t - s.last_update) * (C / W)),
        last_update := t } := by
  simp only [addTokens]
  rw [if_pos h]

/-- Refill when no positive amount has accrued. -/
theorem addTokens_nonpos (C W t : ℚ) (s : RLState)
    (h : ¬ 0 < (t - s.last_update) * (C / W)) :
    addTokens C W t s = s := by
  simp only [addTokens]
  rw [if_neg h]

/-- A successful acquire poll. -/
theorem tryAcquire_succ (C W t : ℚ) (s : RLState)
    (h : 1 ≤ (addTokens C W t s).tokens) :
    tryAcquire C W t s =
      (true, { tokens := (addTokens C W t s).tokens - 1,
               last_update := (addTokens C W t s).last_update }) := by
  simp only [tryAcquire]
  rw [if_pos h]

/-- A failed acquire poll. -/
theorem tryAcquire_fail (C W t : ℚ) (s : RLState)
    (h : ¬ 1 ≤ (addTokens C W t s).tokens) :
    tryAcquire C W t s = (false, addTokens C W t s) := by
  simp only [tryAcquire]
  rw [if_neg h]

/-- Refilling keeps the token count within the bucket bounds. -/
theorem addTokens_bounds (C W t : ℚ) (hC : 0 ≤ C) (s : RLState)
    (h0 : 0 ≤ s.tokens) (hc : s.tokens ≤ C) :
    0 ≤ (addTokens C W t s).tokens ∧ (addTokens C W t s).tokens ≤ C := by
  by_cases hg : 0 < (t - s.last_update) * (C / W)
  · rw [addTokens_pos C W t s hg]
    exact ⟨le_min hC (by linarith), min_le_left _ _⟩
  · rw [addTokens_nonpos C W t s hg]
    exact ⟨h0, hc⟩

/-- One acquire poll keeps the token count within the bucket bounds. -/
theorem tryAcquire_bounds (C W t : ℚ) (hC : 0 ≤ C) (s : RLState)
    (h0 : 0 ≤ s.tokens) (hc : s.tokens ≤ C) :
    0 ≤ (tryAcquire C W t s).2.tokens ∧ (tryAcquire C W t s).2.tokens ≤ C := by
  obtain ⟨ha, hb⟩ := addTokens_bounds C W t hC s h0 hc
  by_cases hav : 1 ≤ (addTokens C W t s).tokens
  · rw [tryAcquire_succ C W t s hav]
    exact ⟨by simp; linarith, by simp; linarith⟩
  · rw [tryAcquire_fail C W t s hav]
    exact ⟨ha, hb⟩

/-- C9: for a limiter built with max_calls at least 1, the token count
stays between 0 and max_calls after construction and after any sequence
of refills and acquire polls: refills cap at max_calls and an
acquisition only decrements when a full token is available. -/
theorem rate_limiter_token_bounds (C W : ℚ) (hC : 1 ≤ C) (t0 : ℚ)
    (ops : List RLOp) :
    0 ≤ (runOps C W (rlInit C t0) ops).tokens ∧
    (runOps C W (rlInit C t0) ops).tokens ≤ C := by
  have hC0 : 0 ≤ C := by linarith
  suffices h : ∀ (ops : List RLOp) (s : RLState),
      0 ≤ s.tokens → s.tokens ≤ C →
      0 ≤ (runOps C W s ops).tokens ∧ (runOps C W s ops).tokens ≤ C by
    exact h ops (rlInit C t0) hC0 (le_refl C)
  intro ops
  induction ops with
  | nil => intro s h0 hc; exact ⟨h0, hc⟩
  | cons op rest ih =>
    intro s h0 hc
    cases op with
    | refill t =>
      obtain ⟨ha, hb⟩ := addTokens_bounds C W t hC0 s h0 hc
      exact ih _ ha hb
    | acq t =>
      obtain ⟨ha, hb⟩ := tryAcquire_bounds C W t hC0 s h0 hc
      exact ih _ ha hb

/-- C9 witness: the bounds at a concrete limiter and operation list. -/
theorem rate_limiter_token_bounds_witness :
    0 ≤ (runOps 5 60 (rlInit 5 0) [RLOp.acq 1, RLOp.refill 2]).tokens ∧
    (runOps 5 60 (rlInit 5 0) [RLOp.acq 1, RLOp.refill 2]).tokens ≤ 5 :=
  rate_limiter_token_bounds 5 60 (by norm_num) 0 [RLOp.acq 1, RLOp.refill 2]

/-- The number of successful acquire polls is bounded by the current
tokens plus what can refill up to a horizon T that bounds every poll
time. -/
theorem countSucc_le_linear (C W : ℚ) (hC : 0 < C) (hW : 0 < W) :
    ∀ (evs : List ℚ) (s : RLState) (T : ℚ),
      0 ≤ s.tokens → s.last_update ≤ T → (∀ u ∈ evs, u ≤ T) →
      (countSucc C W s evs : ℚ) ≤ s.tokens + (T - s.last_update) * (C / W) := by
  have hr : 0 < C / W := div_pos hC hW
  intro evs
  induction evs with
  | nil =>
    intro s T h0 hT _
    simp [countSucc]
    nlinarith
  | cons t ts ih =>
    intro s T h0 hT hmem
    have htT : t ≤ T := hmem t (by simp)
    have hmem' : ∀ u ∈ ts, u ≤ T := fun u hu => hmem u (by simp [hu])
    have hcons : countSucc C W s (t :: ts) =
        (if (tryAcquire C W t s).1 then 1 else 0) +
          countSucc C W (tryAcquire C W t s).2 ts := rfl
    rw [hcons]
    by_cases hg : 0 < (t - s.last_update) * (C / W)
    · have hadd := addTokens_pos C W t s hg
      have hkey : (t - s.last_update) * (C / W) + (T - t) * (C / W) =
          (T - s.last_update) * (C / W) := by ring
      have hmin1 : min C (s.tokens + (t - s.last_update) * (C / W)) ≤
          s.tokens + (t - s.last_update) * (C / W) := min_le_right _ _
      have hmin0 : 0 ≤ min C (s.tokens + (t - s.last_update) * (C / W)) :=
        le_min (le_of_lt hC) (by linarith)
      by_cases hav : 1 ≤ (addTokens C W t s).tokens
      · have htry := tryAcquire_succ C W t s hav
        rw [hadd] at htry hav
        simp only at hav
        rw [htry]
        have hrec := ih
          ⟨min C (s.tokens + (t - s.last_update) * (C / W)) - 1, t⟩ T
          (by simp only; linarith) (by simpa using htT) hmem'
        simp only at hrec
        simp only [if_pos rfl]
        push_cast
        linarith
      · have htry := tryAcquire_fail C W t s hav
        rw [hadd] at htry
        rw [htry]
        have hrec := ih
          ⟨min C (s.tokens + (t - s.last_update) * (C / W)), t⟩ T
          (by simp only; linarith) (by simpa using htT) hmem'
        simp only at hrec
        simp only [Bool.false_eq_true, if_false]
        push_cast
        linarith
    · have hadd := addTokens_nonpos C W t s hg
      have hg' : (t - s.last_update) * (C / W) ≤ 0 := le_of_not_lt hg
      by_cases hav : 1 ≤ (addTokens C W t s).tokens
      · have htry := tryAcquire_succ C W t s hav
        rw [hadd] at htry hav
        rw [htry]
        have hrec := ih ⟨s.tokens - 1, s.last_update⟩ T
          (by simp only; linarith) (by simpa using hT) hmem'
        simp only at hrec
        simp only [if_pos rfl]
        push_cast
        linarith
      · have htry := tryAcquire_fail C W t s hav
        rw [hadd] at htry
        rw [htry]
        have hrec := ih s T h0 hT hmem'
        simp only [Bool.false_eq_true, if_false]
        push_cast
        linarith

/-- C2 amended: once the events of a window are confined to an interval
of length time_window, at most 2 * max_calls acquisitions complete in
it — the initial burst of up to max_calls banked tokens plus at most
max_calls refilled during the window; and concretely, with max_calls = 5
and time_window = 60 a fresh limiter admits exactly 5 immediate
acquisitions, a 6th poll at 11.9 seconds still fails, and the 6th
acquisition completes at 12 seconds. -/
theorem rate_limiter_window_bound (C W a : ℚ) (s : RLState) (evs : List ℚ)
    (hC : 0 < C) (hW : 0 < W) (h0 : 0 ≤ s.tokens)
    (hlu : s.last_update ≤ a) (hevs : ∀ u ∈ evs, a < u ∧ u ≤ a + W) :
    (countSucc C W s evs : ℚ) ≤ 2 * C ∧
    countSucc 5 60 (rlInit 5 0) [0, 0, 0, 0, 0, 0] = 5 ∧
    countSucc 5 60 (rlInit 5 0) [0, 0, 0, 0, 0, (119 : ℚ) / 10] = 5 ∧
    countSucc 5 60 (rlInit 5 0) [0, 0, 0, 0, 0, 12] = 6 := by
  have hr : 0 < C / W := div_pos hC hW
  refine ⟨?_, ?_, ?_, ?_⟩
  · cases evs with
    | nil =>
      simp [countSucc]
      positivity
    | cons t ts =>
      obtain ⟨hat, htw⟩ := hevs t (by simp)
      have hmem' : ∀ u ∈ ts, u ≤ a + W := fun u hu => (hevs u (by simp [hu])).2
      have hg : 0 < (t - s.last_update) * (C / W) :=
        mul_pos (by linarith) hr
      have hadd := addTokens_pos C W t s hg
      have hcons : countSucc C W s (t :: ts) =
          (if (tryAcquire C W t s).1 then 1 else 0) +
            countSucc C W (tryAcquire C W t s).2 ts := rfl
      have hmin0 : 0 ≤ min C (s.tokens + (t - s.last_update) * (C / W)) :=
        le_min (le_of_lt hC) (by nlinarith)
      have hminC : min C (s.tokens + (t - s.last_update) * (C / W)) ≤ C :=
        min_le_left _ _
      have htail : (a + W - t) * (C / W) ≤ W * (C / W) :=
        mul_le_mul_of_nonneg_right (by linarith) (le_of_lt hr)
      have hWC : W * (C / W) = C := by
        field_simp
      rw [hcons]
      by_cases hav : 1 ≤ (addTokens C W t s).tokens
      · have htry := tryAcquire_succ C W t s hav
        rw [hadd] at htry hav
        simp only at hav
        rw [htry]
        have hrec := countSucc_le_linear C W hC hW ts
          ⟨min C (s.tokens + (t - s.last_update) * (C / W)) - 1, t⟩ (a + W)
          (by simp only; linarith) (by simpa using htw) hmem'
        simp only at hrec
        simp only [if_pos rfl]
        push_cast
        linarith
      · have htry := tryAcquire_fail C W t s hav
        rw [hadd] at htry
        rw [htry]
        have hrec := countSucc_le_linear C W hC hW ts
          ⟨min C (s.tokens + (t - s.last_update) * (C / W)), t⟩ (a + W)
          (by simp only; linarith) (by simpa using htw) hmem'
        simp only at hrec
        simp only [Bool.false_eq_true, if_false]
        push_cast
        linarith
  · norm_num [countSucc, tryAcquire, addTokens, rlInit]
  · norm_num [countSucc, tryAcquire, addTokens, rlInit]
  · norm_num [countSucc, tryAcquire, addTokens, rlInit]

/-- C2 witness: the window bound applied to a concrete limiter and
schedule. -/
theorem rate_limiter_window_bound_witness :
    (countSucc 5 60 (rlInit 5 0) [1] : ℚ) ≤ 2 * 5 :=
  (rate_limiter_window_bound 5 60 0 (rlInit 5 0) [1] (by norm_num)
    (by norm_num) (by norm_num [rlInit]) (by norm_num [rlInit])
    (by intro u hu; simp at hu; subst hu; norm_num)).1

/-- C2 counterexample: with max_calls = 5 and time_window = 60, a fresh
limiter admits 10 completed acquisitions at times 0,0,0,0,0,12,24,36,48,
60 — all within one rolling window of 60 seconds — refuting that no
more than max_calls acquisitions complete within any window of
time_window seconds. -/
theorem rate_limiter_window_cex :
    countSucc 5 60 (rlInit 5 0) [0, 0, 0, 0, 0, 12, 24, 36, 48, 60] = 10 ∧
    (∀ u ∈ ([0, 0, 0, 0, 0, 12, 24, 36, 48, 60] : List ℚ), 0 ≤ u ∧ u ≤ 0 + 60) ∧
    ¬ (10 : ℚ) ≤ 5 := by
  refine ⟨?_, ?_, by norm_num⟩
  · norm_num [countSucc, tryAcquire, addTokens, rlInit]
  · intro u hu
    fin_cases hu <;> norm_num

/-! ## Manager lemmas -/

/-- The scheduling pass's per-episode enqueue never touches the store. -/
theorem enqueueEffect_store (st : MState) (ep : Nat) (age : ℚ) :
    (enqueueEffect st ep age).store = st.store := by
  simp only [enqueueEffect]
  split_ifs <;> rfl

/-- The scheduling pass's per-episode enqueue never touches the active
sets. -/
theorem enqueueEffect_active (st : MState) (ep : Nat) (age : ℚ) :
    (enqueueEffect st ep age).active = st.active := by
  simp only [enqueueEffect]
  split_ifs <;> rfl

/-- popMin only returns none on the empty queue. -/
theorem popMin_ne_none (x : ℚ × Nat) (xs : List (ℚ × Nat)) :
    popMin (x :: xs) ≠ none := by
  unfold popMin
  cases h : popMin xs with
  | none => simp
  | some p =>
    obtain ⟨m, rest⟩ := p
    by_cases hle : entryLeB x m <;> simp [hle]

/-- The entry popped from a priority queue has the least priority. -/
theorem popMin_le :
    ∀ (q : List (ℚ × Nat)) (e : ℚ × Nat) (rest : List (ℚ × Nat)),
      popMin q = some (e, rest) → ∀ x ∈ q, e.1 ≤ x.1 := by
  intro q
  induction q with
  | nil => intro e rest h; simp [popMin] at h
  | cons y ys ih =>
    intro e rest h x hx
    rw [show popMin (y :: ys) =
        match popMin ys with
        | none => some (y, [])
        | some (m, rest) =>
            if entryLeB y m then some (y, ys) else some (m, y :: rest)
      from rfl] at h
    cases hys : popMin ys with
    | none =>
      rw [hys] at h
      simp at h
      obtain ⟨rfl, rfl⟩ := h
      cases ys with
      | nil => simp at hx; subst hx; exact le_refl _
      | cons z zs => exact absurd hys (popMin_ne_none z zs)
    | some p =>
      obtain ⟨m, r'⟩ := p
      rw [hys] at h
      dsimp only at h
      simp at hx
      by_cases hle : entryLeB y m
      · rw [if_pos hle] at h
        simp at h
        obtain ⟨rfl, rfl⟩ := h
        have hym : y.1 ≤ m.1 := by
          simp [entryLeB] at hle
          rcases hle with h | ⟨h, _⟩
          · exact le_of_lt h
          · exact le_of_eq h
        rcases hx with rfl | hx
        · exact le_refl _
        · exact le_trans hym (ih m r' hys x hx)
      · rw [if_neg hle] at h
        simp at h
        obtain ⟨rfl, rfl⟩ := h
        have hmy : m.1 ≤ y.1 := by
          simp [entryLeB] at hle
          exact hle.1
        rcases hx with rfl | hx
        · exact hmy
        · exact ih m r' hys x hx
  
/-- Every entry left behind by popMin was in the original queue. -/
theorem popMin_rest_mem :
    ∀ (q : List (ℚ × Nat)) (e : ℚ × Nat) (rest : List (ℚ × Nat)),
      popMin q = some (e, rest) → ∀ x ∈ rest, x ∈ q := by
  intro q
  induction q with
  | nil => intro e rest h; simp [popMin] at h
  | cons y ys ih =>
    intro e rest h x hx
    rw [show popMin (y :: ys) =
        match popMin ys with
        | none => some (y, [])
        | some (m, rest) =>
            if entryLeB y m then some (y, ys) else some (m, y :: rest)
      from rfl] at h
    cases hys : popMin ys with
    | none =>
      rw [hys] at h
      simp at h
      obtain ⟨rfl, rfl⟩ := h
      simp at hx
    | some p =>
      obtain ⟨m, r'⟩ := p
      rw [hys] at h
      dsimp only at h
      by_cases hle : entryLeB y m
      · rw [if_pos hle] at h
        simp at h
        obtain ⟨rfl, rfl⟩ := h
        exact List.mem_cons_of_mem y hx
      · rw [if_neg hle] at h
        simp at h
        obtain ⟨rfl, rfl⟩ := h
        simp at hx
        rcases hx with rfl | hx
        · exact List.mem_cons_self _ _
        · exact List.mem_cons_of_mem y (ih m r' hys x hx)

/-- C6: the scheduling pass pushes exactly the score
age_hours + retry_count * 24 with the episode id, the dequeued entry of
a queue always carries the least score, and on the claim's concrete
example the age-10h, 0-retry episode (score 10) is dequeued before the
age-1h, 1-retry episode (score 25). -/
theorem priority_score_scheduling (st : MState) (ep : Nat) (age : ℚ)
    (h1 : (st.store ep).downloaded = false)
    (h2 : ep ∉ st.active Stage.download) :
    (enqueueEffect st ep age).queue Stage.download =
      st.queue Stage.download ++
        [(age + (st.store ep).retry_count * 24, ep)] ∧
    (∀ (q : List (ℚ × Nat)) (e : ℚ × Nat) (rest : List (ℚ × Nat)),
      popMin q = some (e, rest) → ∀ x ∈ q, e.1 ≤ x.1) ∧
    priorityScore 10 0 = 10 ∧
    priorityScore 1 1 = 25 ∧
    popMin [(priorityScore 10 0, 0), (priorityScore 1 1, 1)] =
      some ((10, 0), [(25, 1)]) := by
  refine ⟨?_, popMin_le, by norm_num [priorityScore], by norm_num [priorityScore], ?_⟩
  · simp only [enqueueEffect]
    rw [if_pos ⟨h1, h2⟩]
    simp [priorityScore]
  · norm_num [popMin, entryLeB, priorityScore]

/-- C6 witness: the scheduling score and dequeue order at concrete
inputs. -/
theorem priority_score_scheduling_witness :
    popMin [(priorityScore 10 0, 0), (priorityScore 1 1, 1)] =
      some ((10, 0), [(25, 1)]) :=
  (priority_score_scheduling (mInit fun _ => ⟨false, false, false, 0, none⟩)
    0 1 rfl (by simp [mInit])).2.2.2.2

/-- Flags can only go from false to true across a single pipeline
step. -/
theorem step_store_mono (mr : Nat) (s s' : MState) (h : Step mr s s')
    (ep : Nat) :
    ((s.store ep).downloaded = true → (s'.store ep).downloaded = true) ∧
    ((s.store ep).transcribed = true → (s'.store ep).transcribed = true) ∧
    ((s.store ep).analyzed = true → (s'.store ep).analyzed = true) := by
  cases h with
  | enqueue e age helig =>
    rw [enqueueEffect_store]
    exact ⟨id, id, id⟩
  | workerGet stg pr e rest hpop =>
    exact ⟨id, id, id⟩
  | recordFailure stg e msg hm =>
    simp only [recordFailureEffect]
    by_cases hE : ep = e
    · subst hE; simp
    · simp [hE]
  | actionOk stg e hm hpre =>
    simp only [setFlagEffect]
    by_cases hE : ep = e
    · subst hE
      cases stg <;> simp
    · simp [hE]
  | workerDone stg e hm =>
    exact ⟨id, id, id⟩
  | workerDoneExn stg e msg hm =>
    exact ⟨id, id, id⟩

/-- C8: along any sequence of pipeline steps (scheduling passes, queue
dequeues, worker status commits, worker completions), each of the three
stage flags is monotone: once true it never returns to false. -/
theorem stage_flags_monotone (mr : Nat) (s s' : MState) (h : Steps mr s s')
    (ep : Nat) :
    ((s.store ep).downloaded = true → (s'.store ep).downloaded = true) ∧
    ((s.store ep).transcribed = true → (s'.store ep).transcribed = true) ∧
    ((s.store ep).analyzed = true → (s'.store ep).analyzed = true) := by
  have h' : Relation.ReflTransGen (Step mr) s s' := h
  clear h
  induction h' with
  | refl => exact ⟨id, id, id⟩
  | tail hst hstep ih =>
    obtain ⟨d1, t1, a1⟩ := ih
    obtain ⟨d2, t2, a2⟩ := step_store_mono mr _ _ hstep ep
    exact ⟨fun hh => d2 (d1 hh), fun hh => t2 (t1 hh), fun hh => a2 (a1 hh)⟩

/-- The store used by the C8 witness: episode 0 downloaded. -/
def wStore8 : Nat → EpState :=
  fun _ => { downloaded := true, transcribed := false, analyzed := false,
             retry_count := 0, error_message := none }

/-- C8 witness: a concrete scheduling step preserves a true downloaded
flag. -/
theorem stage_flags_monotone_witness :
    ((enqueueEffect (mInit wStore8) 0 2).store 0).downloaded = true :=
  (stage_flags_monotone 3 (mInit wStore8) (enqueueEffect (mInit wStore8) 0 2)
    (Relation.ReflTransGen.single
      (Step.enqueue (mInit wStore8) 0 2 (by decide))) 0).1 rfl

/-- C1 amended: a pipeline step only puts an episode id into a stage's
queue from a state in which that id is not in that stage's active set;
ids already present, or entries surviving a dequeue, were in the queue
before the step. -/
theorem enqueue_respects_active (mr : Nat) (s s' : MState) (h : Step mr s s')
    (stg : Stage) (ep : Nat) (hmem : ep ∈ qIds (s'.queue stg)) :
    ep ∈ qIds (s.queue stg) ∨ ep ∉ s.active stg := by
  cases h with
  | enqueue e age helig =>
    simp only [enqueueEffect] at hmem
    split_ifs at hmem with h1 h2 h3
    · by_cases hq : stg = Stage.download
      · subst hq
        simp only [if_pos rfl, qIds, List.map_append] at hmem
        simp at hmem
        rcases hmem with hmem | rfl
        · left; simpa [qIds] using hmem
        · right; exact h1.2
      · left
        simpa [if_neg hq, qIds] using hmem
    · by_cases hq : stg = Stage.transcribe
      · subst hq
        simp only [if_pos rfl, qIds, List.map_append] at hmem
        simp at hmem
        rcases hmem with hmem | rfl
        · left; simpa [qIds] using hmem
        · right; exact h2.2.2
      · left
        simpa [if_neg hq, qIds] using hmem
    · by_cases hq : stg = Stage.analyze
      · subst hq
        simp only [if_pos rfl, qIds, List.map_append] at hmem
        simp at hmem
        rcases hmem with hmem | rfl
        · left; simpa [qIds] using hmem
        · right; exact h3.2.2
      · left
        simpa [if_neg hq, qIds] using hmem
    · left; exact hmem
  | workerGet stg0 pr e rest hpop =>
    simp only [workerGetEffect] at hmem
    by_cases hq : stg = stg0
    · subst hq
      simp only [if_pos rfl] at hmem
      left
      simp [qIds] at hmem ⊢
      obtain ⟨a, hab⟩ := hmem
      exact ⟨a, popMin_rest_mem (s.queue stg) (pr, e) rest hpop (a, ep) hab⟩
    · left
      simpa [if_neg hq] using hmem
  | recordFailure stg0 e msg hm =>
    left; exact hmem
  | actionOk stg0 e hm hpre =>
    left; exact hmem
  | workerDone stg0 e hm =>
    left; exact hmem
  | workerDoneExn stg0 e msg hm =>
    left; exact hmem

/-- A store of fresh episodes, used by the C1 counterexample. -/
def cexStore : Nat → EpState :=
  fun _ => { downloaded := false, transcribed := false, analyzed := false,
             retry_count := 0, error_message := none }

/-- C1 counterexample, initial state. -/
def cexS0 : MState := mInit cexStore

/-- C1 counterexample after a first scheduling pass enqueues episode 0. -/
def cexS1 : MState := enqueueEffect cexS0 0 1

/-- C1 counterexample after a second scheduling pass enqueues episode 0
again (the guard only checks the active set, which is still empty). -/
def cexS2 : MState := enqueueEffect cexS1 0 1

/-- C1 counterexample after a download worker dequeues one copy of
episode 0 and claims it in the active set. -/
def cexS3 : MState := workerGetEffect Stage.download cexS2 [((1 : ℚ), 0)] 0

/-- The queue contents after the two scheduling passes of the C1
counterexample. -/
theorem cexS2_queue : cexS2.queue Stage.download = [((1 : ℚ), 0), (1, 0)] := by
  norm_num [cexS2, cexS1, cexS0, enqueueEffect, mInit, cexStore, priorityScore]

/-- C1 counterexample: three reachable pipeline steps (two scheduling
passes enqueue episode 0 before any worker dequeues, then one worker
dequeue) put episode 0 simultaneously in the download queue and the
download active set — refuting the claimed invariant. -/
theorem queue_active_overlap_cex :
    Steps 3 cexS0 cexS3 ∧
    0 ∈ qIds (cexS3.queue Stage.download) ∧
    0 ∈ cexS3.active Stage.download := by
  refine ⟨?_, ?_, ?_⟩
  · have h1 : Step 3 cexS0 cexS1 := Step.enqueue cexS0 0 1 (by decide)
    have helig2 : eligible 3 (cexS1.store 0) := by
      rw [show cexS1.store = cexS0.store from enqueueEffect_store cexS0 0 1]
      decide
    have h2 : Step 3 cexS1 cexS2 := Step.enqueue cexS1 0 1 helig2
    have hpop : popMin (cexS2.queue Stage.download) =
        some (((1 : ℚ), 0), [((1 : ℚ), 0)]) := by
      rw [cexS2_queue]
      norm_num [popMin, entryLeB]
    have h3 : Step 3 cexS2 cexS3 :=
      Step.workerGet cexS2 Stage.download (1 : ℚ) 0 [((1 : ℚ), 0)] hpop
    exact ((Relation.ReflTransGen.refl.tail h1).tail h2).tail h3
  · simp [cexS3, workerGetEffect, qIds]
  · simp [cexS3, workerGetEffect]

/-- C1 amended witness: a concrete enqueue step only happens with the
episode outside the stage's active set. -/
theorem enqueue_respects_active_witness :
    0 ∈ qIds (cexS0.queue Stage.download) ∨ 0 ∉ cexS0.active Stage.download :=
  enqueue_respects_active 3 cexS0 cexS1 (Step.enqueue cexS0 0 1 (by decide))
    Stage.download 0
    (by norm_num [cexS1, cexS0, enqueueEffect, mInit, cexStore, qIds])

/-- A store of fresh episodes, used by the C7 counterexample. -/
def cexTStore : Nat → EpState :=
  fun _ => { downloaded := false, transcribed := false, analyzed := false,
             retry_count := 0, error_message := none }

/-- C7 counterexample, initial state. -/
def cexT0 : MState := mInit cexTStore

/-- C7 counterexample after the scheduling pass enqueues episode 0. -/
def cexT1 : MState := enqueueEffect cexT0 0 1

/-- C7 counterexample after a download worker dequeues episode 0. -/
def cexT2 : MState := workerGetEffect Stage.download cexT1 [] 0

/-- C7 counterexample after the first failed attempt commits. -/
def cexT3 : MState := recordFailureEffect 0 "fail" cexT2

/-- C7 counterexample after the second failed attempt commits. -/
def cexT4 : MState := recordFailureEffect 0 "fail" cexT3

/-- C7 counterexample after the third failed attempt commits. -/
def cexT5 : MState := recordFailureEffect 0 "fail" cexT4

/-- C7 counterexample after the fourth failed attempt commits. -/
def cexT6 : MState := recordFailureEffect 0 "fail" cexT5

/-- C7 counterexample after the worker loop's bookkeeping runs on the
returned-false process call. -/
def cexT7 : MState := doneEffect Stage.download 0 cexT6

/-- C7 counterexample: a reachable run in which episode 0 exhausts its
retries (retry_count 4 with max_retries 3, download flag still false)
ends with getStatus reporting zero failed tasks and one processed task —
refuting that every terminally failed episode increases the failed-task
count. -/
theorem terminal_failure_cex :
    Steps 3 cexT0 cexT7 ∧
    (cexT7.store 0).retry_count = 4 ∧
    (cexT7.store 0).downloaded = false ∧
    (getStatus cexT7).failed_tasks = 0 ∧
    (getStatus cexT7).total_processed = 1 := by
  refine ⟨?_, by decide, by decide, by decide, by decide⟩
  have h1 : Step 3 cexT0 cexT1 := Step.enqueue cexT0 0 1 (by decide)
  have hq1 : cexT1.queue Stage.download = [((1 : ℚ), 0)] := by
    norm_num [cexT1, cexT0, enqueueEffect, mInit, cexTStore, priorityScore]
  have hpop : popMin (cexT1.queue Stage.download) = some (((1 : ℚ), 0), []) := by
    rw [hq1]
    rfl
  have h2 : Step 3 cexT1 cexT2 :=
    Step.workerGet cexT1 Stage.download (1 : ℚ) 0 [] hpop
  have hact : 0 ∈ cexT2.active Stage.download := by
    simp [cexT2, workerGetEffect]
  have h3 : Step 3 cexT2 cexT3 := Step.recordFailure cexT2 Stage.download 0 "fail" hact
  have hact3 : 0 ∈ cexT3.active Stage.download := hact
  have h4 : Step 3 cexT3 cexT4 := Step.recordFailure cexT3 Stage.download 0 "fail" hact3
  have h5 : Step 3 cexT4 cexT5 := Step.recordFailure cexT4 Stage.download 0 "fail" hact3
  have h6 : Step 3 cexT5 cexT6 := Step.recordFailure cexT5 Stage.download 0 "fail" hact3
  have h7 : Step 3 cexT6 cexT7 := Step.workerDone cexT6 Stage.download 0 hact3
  exact ((((((Relation.ReflTransGen.refl.tail h1).tail h2).tail h3).tail
    h4).tail h5).tail h6).tail h7

/-- C7 amended: the worker loop's bookkeeping ignores the boolean
returned by process — a completed process call (successful or
terminally failed) leaves failed_tasks unchanged and increments
total_processed, and only an exception escaping process appends to
failed_tasks, increasing the getStatus failed-task count by one. -/
theorem terminal_failure_surfacing (mr : Nat) (st : MState) (stg : Stage)
    (ep : Nat) (msg : String) (h : ep ∈ st.active stg) :
    Step mr st (doneEffect stg ep st) ∧
    (doneEffect stg ep st).failed_tasks = st.failed_tasks ∧
    (doneEffect stg ep st).total_processed = st.total_processed + 1 ∧
    (getStatus (doneEffect stg ep st)).failed_tasks =
      (getStatus st).failed_tasks ∧
    Step mr st (doneExnEffect stg ep msg st) ∧
    (doneExnEffect stg ep msg st).failed_tasks =
      (ep, stg, msg) :: st.failed_tasks ∧
    (getStatus (doneExnEffect stg ep msg st)).failed_tasks =
      (getStatus st).failed_tasks + 1 := by
  exact ⟨Step.workerDone st stg ep h, rfl, rfl, rfl,
    Step.workerDoneExn st stg ep msg h, rfl,
    by simp [getStatus, doneExnEffect]⟩

/-- The store used by the C7 witness. -/
def wStore7 : Nat → EpState :=
  fun _ => { downloaded := false, transcribed := false, analyzed := false,
             retry_count := 0, error_message := none }

/-- The state used by the C7 witness: episode 0 claimed by a download
worker. -/
def wSt7 : MState :=
  { mInit wStore7 with active := fun _ => [0] }

/-- C7 witness: the completion bookkeeping at a concrete state. -/
theorem terminal_failure_surfacing_witness :
    (doneEffect Stage.download 0 wSt7).total_processed =
      wSt7.total_processed + 1 :=
  (terminal_failure_surfacing 3 wSt7 Stage.download 0 "m"
    (by simp [wSt7])).2.2.1

/-! ## Metrics lemmas -/

/-- Looking a name up after a dict write. -/
theorem lookupKey_setKey (k name : String) (v : ℚ) :
    ∀ l : List (String × ℚ),
      lookupKey name (setKey k v l) =
        if k = name then some v else lookupKey name l := by
  intro l
  induction l with
  | nil =>
    simp only [setKey, lookupKey]
  | cons kw rest ih =>
    obtain ⟨k', w⟩ := kw
    simp only [setKey]
    by_cases hk : k' = k
    · subst hk
      simp only [if_pos rfl, lookupKey]
      by_cases hn : k' = name
      · subst hn; simp
      · simp [hn]
    · rw [if_neg hk]
      simp only [lookupKey, ih]
      by_cases hn : k' = name
      · subst hn
        have : ¬ k = k' := fun hh => hk hh.symm
        simp [this]
      · simp [hn]

/-- A name absent from a dict's keys looks up to none. -/
theorem lookupKey_eq_none (name : String) :
    ∀ l : List (String × ℚ), name ∉ l.map Prod.fst → lookupKey name l = none := by
  intro l
  induction l with
  | nil => intro _; rfl
  | cons kw rest ih =>
    obtain ⟨k, w⟩ := kw
    intro h
    rw [List.map_cons] at h
    have h1 : name ≠ k := fun hh => h (by simp [hh])
    have h2 : name ∉ rest.map Prod.fst := fun hh => h (List.mem_cons_of_mem _ hh)
    simp only [lookupKey]
    rw [if_neg (fun hh => h1 hh.symm)]
    exact ih h2

/-- Folding dict writes over a key-distinct list: a written name looks
up to its written value, an unwritten name falls through to the
accumulator. -/
theorem lookupKey_foldl_setKey :
    ∀ (counters acc : List (String × ℚ)) (name : String),
      (counters.map Prod.fst).Nodup →
      lookupKey name (counters.foldl (fun a kv => setKey kv.1 kv.2 a) acc) =
        match lookupKey name counters with
        | some v => some v
        | none => lookupKey name acc := by
  intro counters
  induction counters with
  | nil => intro acc name _; rfl
  | cons kv rest ih =>
    intro acc name hnd
    obtain ⟨k, v⟩ := kv
    simp at hnd
    rw [show ((k, v) :: rest).foldl (fun a kv => setKey kv.1 kv.2 a) acc =
        rest.foldl (fun a kv => setKey kv.1 kv.2 a) (setKey k v acc) from rfl]
    rw [ih (setKey k v acc) name hnd.2]
    simp only [lookupKey]
    by_cases hk : k = name
    · subst hk
      have hnone : lookupKey k rest = none :=
        lookupKey_eq_none k rest (by
          intro hmem
          simp at hmem
          obtain ⟨b, hb⟩ := hmem
          exact hnd.1 b hb)
      rw [hnone, if_pos rfl, lookupKey_setKey, if_pos rfl]
    · rw [if_neg hk]
      cases hrest : lookupKey name rest with
      | some w => rfl
      | none =>
        rw [lookupKey_setKey, if_neg hk]

/-- C10 amended: for every name other than uptime that is present both
as a gauge and as a counter, get returns the gauge value while the
get_all snapshot maps the name to the counter value; the uptime key is
excluded because get_all unconditionally overwrites it with the elapsed
time. -/
theorem metrics_shadow_lookup (m : MetricsState) (name : String)
    (d now g c : ℚ) (hname : name ≠ "uptime")
    (hnd : (m.counters.map Prod.fst).Nodup)
    (hg : lookupKey name m.gauges = some g)
    (hc : lookupKey name m.counters = some c) :
    mGet name d m = g ∧ lookupKey name (mGetAll now m) = some c := by
  constructor
  · unfold mGet
    rw [hg]
  · unfold mGetAll
    rw [lookupKey_setKey, if_neg (fun hh => hname hh.symm)]
    rw [lookupKey_foldl_setKey m.counters m.gauges name hnd, hc]

/-- The shadowed-uptime collector state of the C10 counterexample. -/
def mCex : MetricsState :=
  { gauges := [("uptime", 7)], counters := [("uptime", 3)], start := 0 }

/-- C10 counterexample: with uptime present as a gauge (7) and as a
counter (3), get returns the gauge value but the get_all snapshot read
at clock 100 maps uptime to the elapsed time 100, not to the counter
value 3 — refuting the claim for the shadowed name uptime. -/
theorem metrics_shadow_uptime_cex :
    lookupKey "uptime" mCex.gauges = some 7 ∧
    lookupKey "uptime" mCex.counters = some 3 ∧
    mGet "uptime" 0 mCex = 7 ∧
    lookupKey "uptime" (mGetAll 100 mCex) = some 100 ∧
    ¬ ((100 : ℚ) = 3) := by
  refine ⟨by simp [mCex, lookupKey], by simp [mCex, lookupKey],
    by simp [mCex, mGet, lookupKey], ?_, by norm_num⟩
  norm_num [mCex, mGetAll, lookupKey, setKey]

/-- The collector state of the C10 witness. -/
def mW : MetricsState :=
  { gauges := [("x", 2)], counters := [("x", 3)], start := 0 }

/-- C10 witness: the two lookups at a concrete shadowed name. -/
theorem metrics_shadow_lookup_witness :
    mGet "x" 0 mW = 2 ∧ lookupKey "x" (mGetAll 5 mW) = some 3 :=
  metrics_shadow_lookup mW "x" 0 5 2 3 (by simp) (by simp [mW])
    (by simp [mW, lookupKey]) (by simp [mW, lookupKey])

end PawgAudio